import Mathlib

/-!
Shallow embedding of the local idea-store of `docs/js/app.js` (the
`IdeaDatabase` class of the embedded `db.js` database layer) together with
the relevant parts of the presentation layer (`IdeaApp`), and proofs about
the embedded operations.

Modelling conventions:
* SQL rows of the `ideas` table are the `Row` structure; the table is the
  list of rows in rowid (insertion) order.
* SQL `TEXT` cells that may be `NULL` are `Option String`.
* Timestamps are the ISO-8601 strings the code stores (`new
  Date().toISOString()`); SQLite compares `TEXT` with binary collation,
  modelled by the lexicographic `String` order.  The current time is
  passed to each operation as an explicit argument.
* `Math.random() * 16 | 0` is modelled by an external stream of nibbles
  (a `List Nat`, each consumed value reduced `% 16`); an empty stream
  keeps yielding `0`.
* The persistence medium (`localStorage`) is the single slot
  `Store.persisted`; `Store.writes` counts calls of `localStorage.setItem`
  so that "a durable write occurred" is observable in the model.
-/

namespace IdeaLib

/-! ### Byte-level varint codec

`IdeaDatabase.save` persists `this.db.export()` — the byte image produced
by the external sql.js engine — through `uint8ArrayToBase64`.  The engine
itself is not part of the repository; its export/import pair is modelled
from the spec: "serializes/deserializes the whole collection to a durable
byte-string representation" and "decoding what was just encoded reproduces
an identical collection".  We realise it as a concrete injective byte
encoding of the row list (`dbExport` below) built on this varint codec. -/

/-- Little-endian base-128 varint: every byte but the last is a plain
digit `< 128`; the final digit is marked by adding `128`.  Structural
recursion on a fuel counter (`fuel ≥ n` always suffices). -/
def encNatAux (fuel n : Nat) : List Nat :=
  match fuel with
  | 0 => [n + 128]
  | fuel + 1 =>
    if n < 128 then [n + 128]
    else (n % 128) :: encNatAux fuel (n / 128)

def encNat (n : Nat) : List Nat := encNatAux n n

/-- Decode a varint, returning the value and the remaining bytes. -/
def decNat : List Nat → Option (Nat × List Nat)
  | [] => none
  | b :: rest =>
    if 128 ≤ b then some (b - 128, rest)
    else
      match decNat rest with
      | some (n, rest') => some (b + 128 * n, rest')
      | none => none

/-- Encode a string: varint length, then each character's code point. -/
def encString (s : String) : List Nat :=
  encNat s.data.length ++ s.data.flatMap (fun c => encNat c.toNat)

/-- Decode `k` characters. -/
def decCharsN : Nat → List Nat → Option (List Char × List Nat)
  | 0, bs => some ([], bs)
  | k + 1, bs =>
    match decNat bs with
    | some (n, bs') =>
      match decCharsN k bs' with
      | some (cs, bs'') => some (Char.ofNat n :: cs, bs'')
      | none => none
    | none => none

def decString (bs : List Nat) : Option (String × List Nat) :=
  match decNat bs with
  | some (len, bs') =>
    match decCharsN len bs' with
    | some (cs, bs'') => some (String.mk cs, bs'')
    | none => none
  | none => none

/-- Encode a nullable `TEXT` cell: tag byte `0` for `NULL`, `1` + string. -/
def encOptStr : Option String → List Nat
  | none => [0]
  | some s => 1 :: encString s

def decOptStr : List Nat → Option (Option String × List Nat)
  | 0 :: bs => some (none, bs)
  | 1 :: bs =>
    match decString bs with
    | some (s, bs') => some (some s, bs')
    | none => none
  | _ => none

/-! ### The `ideas` table

One SQL row of the table created by `IdeaDatabase.createSchema`:
`id TEXT PRIMARY KEY, title TEXT NOT NULL, body TEXT NOT NULL,
stage TEXT NOT NULL DEFAULT 'captured', tags TEXT DEFAULT '[]',
essence TEXT, insight TEXT, next_action TEXT, created_at TEXT NOT NULL,
updated_at TEXT NOT NULL`.  Nullable columns are `Option String`; the
`tags` cell holds the JSON text the code writes there. -/

structure Row where
  id : String
  title : String
  body : String
  stage : String
  tags : Option String
  essence : Option String
  insight : Option String
  next_action : Option String
  created_at : String
  updated_at : String
deriving DecidableEq, Repr

/-- The database: the `ideas` table in rowid (insertion) order. -/
structure DB where
  rows : List Row
deriving DecidableEq, Repr

def encRow (r : Row) : List Nat :=
  encString r.id ++ encString r.title ++ encString r.body ++ encString r.stage ++
    encOptStr r.tags ++ encOptStr r.essence ++ encOptStr r.insight ++
    encOptStr r.next_action ++ encString r.created_at ++ encString r.updated_at

def decRow (bs : List Nat) : Option (Row × List Nat) :=
  match decString bs with
  | none => none
  | some (id, bs) =>
  match decString bs with
  | none => none
  | some (title, bs) =>
  match decString bs with
  | none => none
  | some (body, bs) =>
  match decString bs with
  | none => none
  | some (stage, bs) =>
  match decOptStr bs with
  | none => none
  | some (tags, bs) =>
  match decOptStr bs with
  | none => none
  | some (essence, bs) =>
  match decOptStr bs with
  | none => none
  | some (insight, bs) =>
  match decOptStr bs with
  | none => none
  | some (next_action, bs) =>
  match decString bs with
  | none => none
  | some (created_at, bs) =>
  match decString bs with
  | none => none
  | some (updated_at, bs) =>
    some ({ id := id, title := title, body := body, stage := stage, tags := tags,
            essence := essence, insight := insight, next_action := next_action,
            created_at := created_at, updated_at := updated_at }, bs)

/-- Decode `k` rows. -/
def decRowsN : Nat → List Nat → Option (List Row × List Nat)
  | 0, bs => some ([], bs)
  | k + 1, bs =>
    match decRow bs with
    | some (r, bs') =>
      match decRowsN k bs' with
      | some (rs, bs'') => some (r :: rs, bs'')
      | none => none
    | none => none

/-- Modelled from the spec: the byte image `this.db.export()` of the
external sql.js engine ("serializes the whole collection to a durable
byte-string representation") — a varint row count followed by the encoded
rows in rowid order. -/
def dbExport (db : DB) : List Nat :=
  encNat db.rows.length ++ db.rows.flatMap encRow

/-- Modelled from the spec: `new SQL.Database(bytes)` — decoding the byte
image back into the table ("decoding what was just encoded reproduces an
identical collection"); `none` models anunparseable image. -/
def dbImport (bs : List Nat) : Option DB :=
  match decNat bs with
  | some (len, bs') =>
    match decRowsN len bs' with
    | some (rs, []) => some ⟨rs⟩
    | some (_, _ :: _) => none
    | none => none
  | none => none

/-! ### Base64

`IdeaDatabase.uint8ArrayToBase64` builds a binary string with
`String.fromCharCode` over the bytes and applies the platform `btoa`;
`IdeaDatabase.base64ToUint8Array` applies `atob` and reads the codes back
with `charCodeAt`.  `fromCharCode`/`charCodeAt` are the identity on byte
values `< 256`, so both functions are modelled directly on byte lists,
with `btoa`/`atob` given their standard base64 semantics. -/

def b64Alphabet : List Char :=
  "ABCDEFGHIJKLMNOPQRSTUVWXYZabcdefghijklmnopqrstuvwxyz0123456789+/".data

def b64Char (n : Nat) : Char := b64Alphabet.getD n 'A'

def b64Index (c : Char) : Option Nat := b64Alphabet.findIdx? (· = c)

/-- Model of `btoa` on a binary string of bytes: 3-byte groups become 4 sextet
characters; a trailing group of 1 or 2 bytes is padded with `=`. -/
def btoaChars : List Nat → List Char
  | [] => []
  | [a] => [b64Char (a / 4), b64Char (a % 4 * 16), '=', '=']
  | [a, b] => [b64Char (a / 4), b64Char (a % 4 * 16 + b / 16), b64Char (b % 16 * 4), '=']
  | a :: b :: c :: rest =>
    b64Char (a / 4) :: b64Char (a % 4 * 16 + b / 16) ::
      b64Char (b % 16 * 4 + c / 64) :: b64Char (c % 64) :: btoaChars rest

/-- Model of `atob`: decode 4-character blocks back to bytes (`=`-padding allowed
only in a final block); `none` models the `InvalidCharacterError` thrown
on malformed input. -/
def atobChars : List Char → Option (List Nat)
  | [] => some []
  | c0 :: c1 :: c2 :: c3 :: rest =>
    if c2 = '=' ∧ c3 = '=' ∧ rest = [] then
      match b64Index c0, b64Index c1 with
      | some s0, some s1 => some [s0 * 4 + s1 / 16]
      | _, _ => none
    else if c3 = '=' ∧ rest = [] then
      match b64Index c0, b64Index c1, b64Index c2 with
      | some s0, some s1, some s2 => some [s0 * 4 + s1 / 16, s1 % 16 * 16 + s2 / 4]
      | _, _, _ => none
    else
      match b64Index c0, b64Index c1, b64Index c2, b64Index c3, atobChars rest with
      | some s0, some s1, some s2, some s3, some bs =>
        some ((s0 * 4 + s1 / 16) :: (s1 % 16 * 16 + s2 / 4) :: (s2 % 4 * 64 + s3) :: bs)
      | _, _, _, _, _ => none
  | _ => none

/-- Embeds `IdeaDatabase.uint8ArrayToBase64` (app.js lines 892–899). -/
def uint8ArrayToBase64 (bytes : List Nat) : String :=
  String.mk (btoaChars bytes)

/-- Embeds `IdeaDatabase.base64ToUint8Array` (app.js lines 904–912). -/
def base64ToUint8Array (s : String) : Option (List Nat) :=
  atobChars s.data

/-! ### JSON codec for the `tags` cell

`createIdea`/`updateIdea` store `JSON.stringify(tags)` in the `tags`
column; `getAllIdeas`/`getIdea` read it back with `JSON.parse`, replacing
a parse failure by `[]`.  The platform pair is modelled here restricted to
arrays of strings — the only values the store ever writes to that cell.
(`JSON.parse` of valid non-array JSON, which the store never writes, is
outside the model and mapped to `none` as well.) -/

def hexDigit (n : Nat) : Char := "0123456789abcdef".data.getD n '0'

/-- The `JSON.stringify` escaping of one character: `"` and `\` get a
backslash escape, the named control escapes `\b \f \n \r \t` are used
where they exist, all other control characters become `\u00XX`, and
everything else is emitted verbatim. -/
def escChar (c : Char) : List Char :=
  if c = '"' then ['\\', '"']
  else if c = '\\' then ['\\', '\\']
  else if c.toNat = 8 then ['\\', 'b']
  else if c.toNat = 12 then ['\\', 'f']
  else if c.toNat = 10 then ['\\', 'n']
  else if c.toNat = 13 then ['\\', 'r']
  else if c.toNat = 9 then ['\\', 't']
  else if c.toNat < 32 then ['\\', 'u', '0', '0', hexDigit (c.toNat / 16), hexDigit (c.toNat % 16)]
  else [c]

/-- A JSON string literal: quoted, escaped. -/
def quoteString (s : String) : List Char :=
  '"' :: (s.data.flatMap escChar ++ ['"'])

/-- Join the remaining elements, each preceded by a comma. -/
def commaTail : List (List Char) → List Char
  | [] => []
  | x :: rest => ',' :: (x ++ commaTail rest)

/-- Model of `JSON.stringify` of an array of strings, exactly as the code stores
the `tags` cell: bracketed, comma-separated, no whitespace. -/
def stringifyStrArr (l : List String) : String :=
  String.mk ('[' ::
    ((match l.map quoteString with
      | [] => []
      | x :: rest => x ++ commaTail rest) ++ [']']))

def hexVal (c : Char) : Option Nat :=
  if '0' ≤ c ∧ c ≤ '9' then some (c.toNat - 48)
  else if 'a' ≤ c ∧ c ≤ 'f' then some (c.toNat - 87)
  else if 'A' ≤ c ∧ c ≤ 'F' then some (c.toNat - 55)
  else none

/-- The single-character JSON string escapes. -/
def escCode : Char → Option Char
  | '"' => some '"'
  | '\\' => some '\\'
  | '/' => some '/'
  | 'b' => some (Char.ofNat 8)
  | 'f' => some (Char.ofNat 12)
  | 'n' => some (Char.ofNat 10)
  | 'r' => some (Char.ofNat 13)
  | 't' => some (Char.ofNat 9)
  | _ => none

/-- The tokens of the string-array fragment of JSON. -/
inductive Tok where
  | lbrack
  | rbrack
  | comma
  | str (s : String)
deriving DecidableEq, Repr

/-! Tokenizer state machine: `jsonTokens` scans outside string literals
(skipping JSON whitespace); `strTok` scans inside one, accumulating the
unescaped content in reverse.  Raw control characters inside a literal and
malformed escapes are rejected, as `JSON.parse` does. -/
mutual

def jsonTokens : List Char → Option (List Tok)
  | [] => some []
  | c :: rest =>
    if c.toNat = 32 ∨ c.toNat = 9 ∨ c.toNat = 10 ∨ c.toNat = 13 then jsonTokens rest
    else if c = '[' then (jsonTokens rest).map (Tok.lbrack :: ·)
    else if c = ']' then (jsonTokens rest).map (Tok.rbrack :: ·)
    else if c = ',' then (jsonTokens rest).map (Tok.comma :: ·)
    else if c = '"' then strTok [] rest
    else none

def strTok (acc : List Char) : List Char → Option (List Tok)
  | [] => none
  | c :: rest =>
    if c = '"' then (jsonTokens rest).map (Tok.str (String.mk acc.reverse) :: ·)
    else if c = '\\' then
      match rest with
      | 'u' :: h1 :: h2 :: h3 :: h4 :: rest' =>
        (match hexVal h1, hexVal h2, hexVal h3, hexVal h4 with
         | some a, some b, some x, some d =>
           strTok (Char.ofNat (a * 4096 + b * 256 + x * 16 + d) :: acc) rest'
         | _, _, _, _ => none)
      | e :: rest' =>
        (match escCode e with
         | some x => strTok (x :: acc) rest'
         | none => none)
      | [] => none
    else if c.toNat < 32 then none
    else strTok (c :: acc) rest

end

/-- Parse the elements after the first: either the closing bracket, or a
comma followed by a string and more elements. -/
def parseStrTail : List Tok → Option (List String)
  | [Tok.rbrack] => some []
  | Tok.comma :: Tok.str s :: rest => (parseStrTail rest).map (s :: ·)
  | _ => none

/-- Parse a token stream as a complete array of strings. -/
def parseTokens : List Tok → Option (List String)
  | [Tok.lbrack, Tok.rbrack] => some []
  | Tok.lbrack :: Tok.str s :: rest => (parseStrTail rest).map (s :: ·)
  | _ => none

/-- Model of `JSON.parse` of the `tags` cell, restricted to the string-array
fragment of JSON; `none` models a thrown `SyntaxError` (and, beyond it,
any value the store cannot have written there). -/
def jsonParseStrArr (s : String) : Option (List String) :=
  match jsonTokens s.data with
  | some ts => parseTokens ts
  | none => none

/-- The token sequence of the non-first elements of the array. -/
def tailToks : List String → List Tok
  | [] => []
  | s :: rest => Tok.comma :: Tok.str s :: tailToks rest

/-! ### The store -/

/-- The constant `DB_VERSION` (app.js line 624). -/
def DB_VERSION : Nat := 1

/-- The observable state: the in-memory database, the single
`localStorage` slot `idea-library.db` (`none` = absent), the stream of
random nibbles feeding `Math.random() * 16 | 0` (an exhausted stream
keeps yielding `0`), and a counter of durable writes
(`localStorage.setItem` calls). -/
structure Store where
  db : DB
  persisted : Option String
  rng : List Nat
  writes : Nat
deriving DecidableEq, Repr

/-- Embeds `IdeaDatabase.save` (719–728): export the whole database, base64 it,
overwrite the single persisted entry. -/
def save (s : Store) : Store :=
  { s with persisted := some (uint8ArrayToBase64 (dbExport s.db)),
           writes := s.writes + 1 }

/-- Decode the persisted slot the way `init` (644–649) does on the next
startup: base64 to bytes, bytes to a database. -/
def decodePersisted (s : Store) : Option DB :=
  s.persisted.bind (fun str => (base64ToUint8Array str).bind dbImport)

def uuidTemplate : List Char := "xxxxxxxx-xxxx-4xxx-yxxx-xxxxxxxxxxxx".data

/-- Embeds `IdeaDatabase.generateUUID` (881–887): every `x` of the template takes
a random nibble `r`, the `y` takes `(r & 3) | 8`; the other characters
are copied.  Returns the UUID characters and the unconsumed stream. -/
def uuidChars : List Char → List Nat → List Char × List Nat
  | [], rng => ([], rng)
  | c :: cs, rng =>
    if c = 'x' then
      let r := rng.headD 0 % 16
      let p := uuidChars cs rng.tail
      (hexDigit r :: p.1, p.2)
    else if c = 'y' then
      let r := rng.headD 0 % 16
      let p := uuidChars cs rng.tail
      (hexDigit ((r &&& 3) ||| 8) :: p.1, p.2)
    else
      let p := uuidChars cs rng
      (c :: p.1, p.2)

def generateUUID (rng : List Nat) : String × List Nat :=
  let p := uuidChars uuidTemplate rng
  (String.mk p.1, p.2)

/-- Embeds `IdeaDatabase.createIdea` (733–749).  There is no input validation:
the row is always inserted — unless the generated id collides with an
existing row, in which case the `PRIMARY KEY` constraint makes
`stmt.step()` throw before any change, modelled by the `none` result
(database untouched, no save).  `now` is `new Date().toISOString()`. -/
def createIdea (s : Store) (title body : String) (tags : List String) (now : String) :
    Store × Option String :=
  let p := generateUUID s.rng
  let id := p.1
  let s1 := { s with rng := p.2 }
  if s.db.rows.any (fun r => r.id == id) then (s1, none)
  else
    let row : Row := { id := id, title := title, body := body, stage := "captured",
                       tags := some (stringifyStrArr tags), essence := none, insight := none,
                       next_action := none, created_at := now, updated_at := now }
    (save { s1 with db := ⟨s1.db.rows ++ [row]⟩ }, some id)

/-- One `key → value` entry of the `updates` object passed to
`updateIdea`: the keys the application passes (`title`, `body`, `tags`)
plus the two keys the code explicitly filters out (`id`, `created_at`).
(The unused optional columns `stage`/`essence`/`insight`/`next_action`
are never passed by any caller and are left out of the model.) -/
inductive UpdEntry where
  | id (v : String)
  | created_at (v : String)
  | title (v : String)
  | body (v : String)
  | tags (v : List String)
deriving DecidableEq, Repr

/-- One `SET key = ?` assignment of the dynamic UPDATE: the key filter of
line 813 drops `id` and `created_at`; `tags` is stored as its JSON string
(line 815). -/
def applyUpd (r : Row) : UpdEntry → Row
  | .id _ => r
  | .created_at _ => r
  | .title v => { r with title := v }
  | .body v => { r with body := v }
  | .tags v => { r with tags := some (stringifyStrArr v) }

/-- Embeds `IdeaDatabase.updateIdea` (806–834): build the SET list from the
updates object (skipping `id` and `created_at`), always set `updated_at`,
run the UPDATE against the rows matching the id (zero rows when the id is
absent), save, and return `true` unconditionally. -/
def updateIdea (s : Store) (id : String) (updates : List UpdEntry) (now : String) :
    Store × Bool :=
  let db' : DB := ⟨s.db.rows.map (fun r =>
    if r.id = id then { updates.foldl applyUpd r with updated_at := now } else r)⟩
  (save { s with db := db' }, true)

/-- Embeds `IdeaDatabase.deleteIdea` (839–847): DELETE the rows matching the id
(zero rows when absent), save, return `true` unconditionally. -/
def deleteIdea (s : Store) (id : String) : Store × Bool :=
  (save { s with db := ⟨s.db.rows.filter (fun r => r.id != id)⟩ }, true)

/-- An idea as the read operations return it: the `getAsObject` row with
the `tags` cell replaced by the parsed array. -/
structure Idea where
  id : String
  title : String
  body : String
  stage : String
  tags : List String
  essence : Option String
  insight : Option String
  next_action : Option String
  created_at : String
  updated_at : String
deriving DecidableEq, Repr

/-- The tags post-processing of `getAllIdeas`/`getIdea` (761–769 and
788–796): a `NULL` or empty cell (falsy in JS) yields `[]`, a cell whose
text fails to parse yields `[]` (the `catch`), otherwise the parsed
array. -/
def parseTagsCell : Option String → List String
  | none => []
  | some s =>
    if s = "" then []
    else
      match jsonParseStrArr s with
      | some l => l
      | none => []

def rowToIdea (r : Row) : Idea :=
  { id := r.id, title := r.title, body := r.body, stage := r.stage,
    tags := parseTagsCell r.tags, essence := r.essence, insight := r.insight,
    next_action := r.next_action, created_at := r.created_at, updated_at := r.updated_at }

/-- SQLite's BINARY `TEXT` collation: bytewise comparison of the UTF-8
encodings which, on valid UTF-8, coincides with lexicographic comparison
of the code points. -/
def charListLe : List Char → List Char → Bool
  | [], _ => true
  | _ :: _, [] => false
  | a :: as, b :: bs =>
    if a.toNat < b.toNat then true
    else if b.toNat < a.toNat then false
    else charListLe as bs

def textLe (a b : String) : Bool := charListLe a.data b.data

/-- The row order produced by `SELECT * FROM ideas ORDER BY updated_at
DESC`: SQLite scans `idx_updated_at`, whose entries are ordered by
`updated_at` descending and, between equal keys, by rowid ascending —
a stable descending sort on `updated_at` under the binary `TEXT`
collation (`charListLe`; `textLe_iff` identifies it with the standard
string order). -/
def rowGE (a b : Row) : Prop := textLe b.updated_at a.updated_at = true

instance : DecidableRel rowGE :=
  fun a b => inferInstanceAs (Decidable (textLe b.updated_at a.updated_at = true))

instance : IsTotal Row rowGE :=
  ⟨fun a b => by
    rw [rowGE, rowGE, textLe, textLe]
    suffices h : ∀ xs ys : List Char,
        charListLe xs ys = true ∨ charListLe ys xs = true from h _ _
    intro xs
    induction xs with
    | nil => intro ys; left; rfl
    | cons x xs ih =>
      intro ys
      cases ys with
      | nil => right; rfl
      | cons y ys =>
        rw [charListLe, charListLe]
        by_cases h1 : x.toNat < y.toNat
        · left; rw [if_pos h1]
        · by_cases h2 : y.toNat < x.toNat
          · right; rw [if_pos h2]
          · rw [if_neg h1, if_neg h2, if_neg (by omega), if_neg (by omega)]
            exact ih ys⟩

instance : IsTrans Row rowGE :=
  ⟨fun a b c hab hbc => by
    rw [rowGE, textLe] at hab hbc ⊢
    revert hab hbc
    suffices h : ∀ xs ys zs : List Char, charListLe xs ys = true →
        charListLe ys zs = true → charListLe xs zs = true by
      intro hab hbc
      exact h _ _ _ hbc hab
    intro xs
    induction xs with
    | nil => intro ys zs h1 h2; rfl
    | cons x xs ih =>
      intro ys zs h1 h2
      cases ys with
      | nil => exact absurd h1 (by rw [charListLe]; simp)
      | cons y ys =>
        cases zs with
        | nil => exact absurd h2 (by rw [charListLe]; simp)
        | cons z zs =>
          rw [charListLe] at h1 h2 ⊢
          by_cases hxy : x.toNat < y.toNat
          · by_cases hyz : y.toNat < z.toNat
            · rw [if_pos (by omega)]
            · by_cases hzy : z.toNat < y.toNat
              · rw [if_neg hyz, if_pos hzy] at h2
                exact absurd h2 (by simp)
              · rw [if_pos (by omega)]
          · by_cases hyx : y.toNat < x.toNat
            · rw [if_neg hxy, if_pos hyx] at h1
              exact absurd h1 (by simp)
            · rw [if_neg hxy, if_neg hyx] at h1
              by_cases hyz : y.toNat < z.toNat
              · rw [if_pos (by omega)]
              · by_cases hzy : z.toNat < y.toNat
                · rw [if_neg hyz, if_pos hzy] at h2
                  exact absurd h2 (by simp)
                · rw [if_neg hyz, if_neg hzy] at h2
                  rw [if_neg (by omega), if_neg (by omega)]
                  exact ih ys zs h1 h2⟩

def sortRows (rs : List Row) : List Row := List.insertionSort rowGE rs

/-- Embeds `IdeaDatabase.getAllIdeas` (754–775). -/
def getAllIdeas (db : DB) : List Idea := (sortRows db.rows).map rowToIdea

/-- Embeds `IdeaDatabase.getIdea` (780–801): the first row with the matching id,
or `null` (`none`). -/
def getIdea (db : DB) (id : String) : Option Idea :=
  (db.rows.find? (fun r => r.id == id)).map rowToIdea

/-- Store-level wrapper for the read `getAllIdeas`: the method only
queries `this.db`; it never mutates it and never calls `save`. -/
def listIdeas (s : Store) : Store × List Idea := (s, getAllIdeas s.db)

/-- JSON values, for stating the exact shape of the export artifact. -/
inductive JsVal where
  | nul
  | str (s : String)
  | num (n : Nat)
  | arr (xs : List JsVal)
  | obj (fields : List (String × JsVal))

def cellVal : Option String → JsVal
  | none => JsVal.nul
  | some s => JsVal.str s

/-- An idea record as `JSON.stringify(data, null, 2)` serializes it:
`getAsObject` yields the columns in schema order, `tags` being the parsed
array. -/
def ideaJsonFields (i : Idea) : List (String × JsVal) :=
  [("id", JsVal.str i.id), ("title", JsVal.str i.title), ("body", JsVal.str i.body),
   ("stage", JsVal.str i.stage), ("tags", JsVal.arr (i.tags.map JsVal.str)),
   ("essence", cellVal i.essence), ("insight", cellVal i.insight),
   ("next_action", cellVal i.next_action),
   ("created_at", JsVal.str i.created_at), ("updated_at", JsVal.str i.updated_at)]

/-- Embeds `IdeaDatabase.exportToJSON` (852–860); `now` is the export timestamp
`new Date().toISOString()`. -/
def exportToJSON (s : Store) (now : String) : JsVal :=
  JsVal.obj [("schema_version", JsVal.num DB_VERSION),
             ("exported_at", JsVal.str now),
             ("ideas", JsVal.arr ((getAllIdeas s.db).map (fun i => JsVal.obj (ideaJsonFields i))))]

/-! ### The presentation layer (`IdeaApp`) -/

/-- Model of `String.prototype.trim`: strip leading and trailing whitespace. -/
def jsTrim (s : String) : String :=
  String.mk ((s.data.dropWhile Char.isWhitespace).reverse.dropWhile Char.isWhitespace).reverse

/-- Embeds `IdeaApp.addTag` (356–365): trim, reject the empty result, skip a tag
already present, otherwise append. -/
def addTag (cur : List String) (tag : String) : List String :=
  let t := jsTrim tag
  if t = "" then cur
  else if cur.contains t then cur
  else cur ++ [t]

/-- The create path of `IdeaApp.handleFormSubmit` (234–276): trim title
and body, show field errors and stop without calling the store when
either trimmed value is empty (falsy), otherwise call `createIdea`. -/
def handleFormSubmitCreate (s : Store) (title body : String) (tags : List String)
    (now : String) : Store :=
  let t := jsTrim title
  let b := jsTrim body
  if t = "" ∨ b = "" then s
  else (createIdea s t b tags now).1

/-- A store as `init` (654–659) leaves it on a first run: fresh empty
database, persisted immediately, with a given random stream. -/
def freshStore (rng : List Nat) : Store :=
  save { db := ⟨[]⟩, persisted := none, rng := rng, writes := 0 }

/-! ### General lemmas about the operations -/

/-! ### The claims -/

/-- The initial store of a fresh session, with an exhausted random stream
(every `Math.random() * 16 | 0` yielding `0`). -/
def store0 : Store := freshStore []

/-- A random stream producing three distinct UUIDs. -/
def rngABC : List Nat :=
  List.replicate 31 1 ++ (List.replicate 31 2 ++ List.replicate 31 3)

/-- Create A, B, C in that order (distinct timestamps). -/
def storeABC : Store :=
  (createIdea (createIdea (createIdea (freshStore rngABC)
      "A" "a" [] "2026-01-01T00:00:00.001Z").1
      "B" "b" [] "2026-01-01T00:00:00.002Z").1
      "C" "c" [] "2026-01-01T00:00:00.003Z").1

/-- The scenario store after also updating A. -/
def storeABCupd : Store :=
  (updateIdea storeABC "11111111-1111-4111-9111-111111111111" [UpdEntry.title "A2"]
    "2026-01-01T00:00:00.004Z").1

/-- A row with a `NULL` tags cell. -/
def rowNullTags : Row :=
  ⟨"id1", "t", "b", "captured", none, none, none, none, "c", "u"⟩

/-- A row whose tags cell holds text that is not valid JSON. -/
def rowBadTags : Row :=
  ⟨"id2", "t", "b", "captured", some "oops", none, none, none, "c", "u"⟩

/-! ### Theorems -/

theorem decNat_encNatAux (fuel : Nat) :
    ∀ n t, n ≤ fuel → decNat (encNatAux fuel n ++ t) = some (n, t) := by
  induction fuel with
  | zero =>
    intro n t hn
    obtain rfl : n = 0 := by omega
    simp [encNatAux, decNat]
  | succ fuel ih =>
    intro n t hn
    rw [encNatAux]
    by_cases h : n < 128
    · simp [h, decNat, Nat.le_add_left]
    · have hrec : n / 128 ≤ fuel := by
        have : n / 128 < n := Nat.div_lt_self (by omega) (by omega)
        omega
      simp only [h, if_false, List.cons_append, decNat]
      have hmod : ¬ 128 ≤ n % 128 := by omega
      rw [if_neg hmod, ih (n / 128) _ hrec]
      have : n % 128 + 128 * (n / 128) = n := by
        have := Nat.mod_add_div n 128
        omega
      simp [this]

theorem decNat_encNat (n : Nat) (t : List Nat) :
    decNat (encNat n ++ t) = some (n, t) :=
  decNat_encNatAux n n t (Nat.le_refl n)

theorem encNatAux_lt_256 (fuel : Nat) :
    ∀ n, n ≤ fuel → ∀ b ∈ encNatAux fuel n, b < 256 := by
  induction fuel with
  | zero =>
    intro n hn
    obtain rfl : n = 0 := by omega
    simp [encNatAux]
  | succ fuel ih =>
    intro n hn
    rw [encNatAux]
    by_cases h : n < 128
    · simp [h]; omega
    · have hrec : n / 128 ≤ fuel := by
        have : n / 128 < n := Nat.div_lt_self (by omega) (by omega)
        omega
      simp only [h, if_false]
      intro b hb
      rcases List.mem_cons.mp hb with rfl | hb
      · omega
      · exact ih (n / 128) hrec b hb

theorem encNat_lt_256 (n : Nat) : ∀ b ∈ encNat n, b < 256 :=
  encNatAux_lt_256 n n (Nat.le_refl n)

theorem decCharsN_enc (cs : List Char) (t : List Nat) :
    decCharsN cs.length ((cs.flatMap fun c => encNat c.toNat) ++ t) = some (cs, t) := by
  induction cs with
  | nil => simp [decCharsN]
  | cons c cs ih =>
    simp only [List.length_cons, List.flatMap_cons, List.append_assoc, decCharsN,
      decNat_encNat, ih, Char.ofNat_toNat]

theorem decString_encString (s : String) (t : List Nat) :
    decString (encString s ++ t) = some (s, t) := by
  obtain ⟨cs⟩ := s
  simp only [encString, decString, List.append_assoc, decNat_encNat, decCharsN_enc]

theorem encString_lt_256 (s : String) : ∀ b ∈ encString s, b < 256 := by
  intro b hb
  rcases List.mem_append.mp hb with h | h
  · exact encNat_lt_256 _ b h
  · obtain ⟨c, _, hc⟩ := List.mem_flatMap.mp h
    exact encNat_lt_256 _ b hc

theorem decOptStr_encOptStr (o : Option String) (t : List Nat) :
    decOptStr (encOptStr o ++ t) = some (o, t) := by
  cases o with
  | none => simp [encOptStr, decOptStr]
  | some s => simp [encOptStr, decOptStr, decString_encString]

theorem encOptStr_lt_256 (o : Option String) : ∀ b ∈ encOptStr o, b < 256 := by
  cases o with
  | none => simp [encOptStr]
  | some s =>
    intro b hb
    rcases List.mem_cons.mp hb with rfl | hb
    · omega
    · exact encString_lt_256 s b hb

theorem decRow_encRow (r : Row) (t : List Nat) :
    decRow (encRow r ++ t) = some (r, t) := by
  simp only [encRow, decRow, List.append_assoc, decString_encString, decOptStr_encOptStr]

theorem encRow_lt_256 (r : Row) : ∀ b ∈ encRow r, b < 256 := by
  intro b hb
  simp only [encRow, List.append_assoc, List.mem_append] at hb
  rcases hb with h|h|h|h|h|h|h|h|h|h
  all_goals first
    | exact encString_lt_256 _ b h
    | exact encOptStr_lt_256 _ b h

theorem decRowsN_enc (rs : List Row) (t : List Nat) :
    decRowsN rs.length ((rs.flatMap encRow) ++ t) = some (rs, t) := by
  induction rs with
  | nil => simp [decRowsN]
  | cons r rs ih =>
    simp only [List.length_cons, List.flatMap_cons, List.append_assoc, decRowsN,
      decRow_encRow, ih]

theorem dbImport_dbExport (db : DB) : dbImport (dbExport db) = some db := by
  have h := decRowsN_enc db.rows []
  simp only [List.append_nil] at h
  simp only [dbExport, dbImport, decNat_encNat, h]

theorem dbExport_lt_256 (db : DB) : ∀ b ∈ dbExport db, b < 256 := by
  intro b hb
  rcases List.mem_append.mp hb with h | h
  · exact encNat_lt_256 _ b h
  · obtain ⟨r, _, hr⟩ := List.mem_flatMap.mp h
    exact encRow_lt_256 r b hr

theorem b64Index_b64Char : ∀ n < 64, b64Index (b64Char n) = some n := by decide

theorem b64Char_ne_eqsign : ∀ n < 64, b64Char n ≠ '=' := by decide

theorem atobChars_btoaChars (l : List Nat) (hl : ∀ b ∈ l, b < 256) :
    atobChars (btoaChars l) = some l := by
  induction l using btoaChars.induct with
  | case1 => rfl
  | case2 a =>
    have ha : a < 256 := hl a (by simp)
    rw [btoaChars, atobChars, if_pos ⟨rfl, rfl, rfl⟩,
      b64Index_b64Char (a / 4) (by omega),
      b64Index_b64Char (a % 4 * 16) (by omega)]
    simp only [Option.some.injEq, List.cons.injEq, and_true]
    omega
  | case3 a b =>
    have ha : a < 256 := hl a (by simp)
    have hb : b < 256 := hl b (by simp)
    rw [btoaChars, atobChars,
      if_neg (fun h => b64Char_ne_eqsign (b % 16 * 4) (by omega) h.1),
      if_pos ⟨rfl, rfl⟩,
      b64Index_b64Char (a / 4) (by omega),
      b64Index_b64Char (a % 4 * 16 + b / 16) (by omega),
      b64Index_b64Char (b % 16 * 4) (by omega)]
    simp only [Option.some.injEq, List.cons.injEq, and_true]
    omega
  | case4 a b c rest ih =>
    have ha : a < 256 := hl a (by simp)
    have hb : b < 256 := hl b (by simp)
    have hc : c < 256 := hl c (by simp)
    have hrest : ∀ x ∈ rest, x < 256 := fun x hx => hl x (by simp [hx])
    -- no `=` can occur in a full block, since `=` is not in the alphabet
    rw [btoaChars, atobChars,
      if_neg (fun h => b64Char_ne_eqsign (c % 64) (by omega) h.2.1),
      if_neg (fun h => b64Char_ne_eqsign (c % 64) (by omega) h.1),
      b64Index_b64Char (a / 4) (by omega),
      b64Index_b64Char (a % 4 * 16 + b / 16) (by omega),
      b64Index_b64Char (b % 16 * 4 + c / 64) (by omega),
      b64Index_b64Char (c % 64) (by omega), ih hrest]
    simp only [Option.some.injEq, List.cons.injEq]
    refine ⟨by omega, by omega, by omega, trivial⟩

theorem base64_roundtrip (bytes : List Nat) (hl : ∀ b ∈ bytes, b < 256) :
    base64ToUint8Array (uint8ArrayToBase64 bytes) = some bytes :=
  atobChars_btoaChars bytes hl

theorem hexVal_hexDigit : ∀ n < 16, hexVal (hexDigit n) = some n := by decide

theorem hexVal_zero : hexVal '0' = some 0 := by decide

/-- Scanning the escaped content of a string literal recovers it. -/
theorem strTok_escaped (cs : List Char) :
    ∀ (acc : List Char) (t : List Char),
      strTok acc (cs.flatMap escChar ++ '"' :: t) =
        (jsonTokens t).map (Tok.str (String.mk (acc.reverse ++ cs)) :: ·) := by
  induction cs with
  | nil =>
    intro acc t
    rw [List.flatMap_nil, List.nil_append, strTok.eq_def]
    simp
  | cons c cs ih =>
    intro acc t
    rw [List.flatMap_cons, List.append_assoc]
    by_cases h1 : c = '"'
    · subst h1
      rw [show escChar '"' = ['\\', '"'] from by decide, List.cons_append, List.cons_append,
        List.nil_append, strTok.eq_def]
      simp [escCode, ih]
    · by_cases h2 : c = '\\'
      · subst h2
        rw [show escChar '\\' = ['\\', '\\'] from by decide, List.cons_append, List.cons_append,
          List.nil_append, strTok.eq_def]
        simp [escCode, ih]
      · by_cases h3 : c.toNat = 8
        · obtain rfl : c = Char.ofNat 8 := by rw [← h3, Char.ofNat_toNat]
          rw [show escChar (Char.ofNat 8) = ['\\', 'b'] from by decide, List.cons_append,
            List.cons_append, List.nil_append, strTok.eq_def]
          simp [escCode, ih]
        · by_cases h4 : c.toNat = 12
          · obtain rfl : c = Char.ofNat 12 := by rw [← h4, Char.ofNat_toNat]
            rw [show escChar (Char.ofNat 12) = ['\\', 'f'] from by decide, List.cons_append,
              List.cons_append, List.nil_append, strTok.eq_def]
            simp [escCode, ih]
          · by_cases h5 : c.toNat = 10
            · obtain rfl : c = Char.ofNat 10 := by rw [← h5, Char.ofNat_toNat]
              rw [show escChar (Char.ofNat 10) = ['\\', 'n'] from by decide, List.cons_append,
                List.cons_append, List.nil_append, strTok.eq_def]
              simp [escCode, ih]
            · by_cases h6 : c.toNat = 13
              · obtain rfl : c = Char.ofNat 13 := by rw [← h6, Char.ofNat_toNat]
                rw [show escChar (Char.ofNat 13) = ['\\', 'r'] from by decide, List.cons_append,
                  List.cons_append, List.nil_append, strTok.eq_def]
                simp [escCode, ih]
              · by_cases h7 : c.toNat = 9
                · obtain rfl : c = Char.ofNat 9 := by rw [← h7, Char.ofNat_toNat]
                  rw [show escChar (Char.ofNat 9) = ['\\', 't'] from by decide, List.cons_append,
                    List.cons_append, List.nil_append, strTok.eq_def]
                  simp [escCode, ih]
                · by_cases h8 : c.toNat < 32
                  · rw [show escChar c = ['\\', 'u', '0', '0', hexDigit (c.toNat / 16),
                        hexDigit (c.toNat % 16)] from by
                      rw [escChar, if_neg h1, if_neg h2, if_neg h3, if_neg h4, if_neg h5,
                        if_neg h6, if_neg h7, if_pos h8]]
                    rw [List.cons_append, List.cons_append, List.cons_append, List.cons_append,
                      List.cons_append, List.cons_append, List.nil_append, strTok.eq_def]
                    simp only [hexVal_zero, hexVal_hexDigit (c.toNat / 16) (by omega),
                      hexVal_hexDigit (c.toNat % 16) (by omega), Char.reduceEq, if_false,
                      if_true, reduceIte]
                    rw [show 0 * 4096 + 0 * 256 + c.toNat / 16 * 16 + c.toNat % 16 = c.toNat
                        from by omega, Char.ofNat_toNat, ih]
                    simp
                  · rw [show escChar c = [c] from by
                        rw [escChar, if_neg h1, if_neg h2, if_neg h3, if_neg h4, if_neg h5,
                          if_neg h6, if_neg h7, if_neg h8],
                      List.singleton_append, strTok.eq_def]
                    simp only [if_neg h1, if_neg h2, if_neg h8]
                    rw [ih]
                    simp

/-- Tokenizing a quoted string literal produces one string token. -/
theorem jsonTokens_quote (s : String) (t : List Char) :
    jsonTokens (quoteString s ++ t) = (jsonTokens t).map (Tok.str s :: ·) := by
  obtain ⟨cs⟩ := s
  have h := strTok_escaped cs [] t
  simp only [List.reverse_nil, List.nil_append] at h
  rw [show quoteString ⟨cs⟩ ++ t = '"' :: (cs.flatMap escChar ++ '"' :: t) from by
    simp [quoteString]]
  rw [jsonTokens.eq_def]
  simp [h]

theorem jsonTokens_commaTail (l : List String) (t : List Char) :
    jsonTokens (commaTail (l.map quoteString) ++ ']' :: t) =
      (jsonTokens t).map (fun ts => tailToks l ++ Tok.rbrack :: ts) := by
  induction l with
  | nil =>
    rw [List.map_nil, commaTail, List.nil_append, tailToks, jsonTokens.eq_def]
    simp
  | cons s l ih =>
    rw [List.map_cons, commaTail, tailToks, List.cons_append, List.append_assoc,
      jsonTokens.eq_def]
    simp only [Char.reduceEq, Char.reduceToNat, reduceIte, if_false]
    rw [jsonTokens_quote, ih]
    cases jsonTokens t <;> simp

theorem parseStrTail_tailToks (l : List String) :
    parseStrTail (tailToks l ++ [Tok.rbrack]) = some l := by
  induction l with
  | nil => simp [tailToks, parseStrTail]
  | cons s l ih => simp [tailToks, parseStrTail, ih]

/-- Round trip of the tags codec: parsing what `JSON.stringify` produced
returns exactly the stored list of strings. -/
theorem jsonParse_stringify (l : List String) :
    jsonParseStrArr (stringifyStrArr l) = some l := by
  cases l with
  | nil => decide
  | cons s l =>
    show jsonParseStrArr
      (String.mk ('[' :: ((quoteString s ++ commaTail (l.map quoteString)) ++ [']']))) = _
    rw [jsonParseStrArr]
    rw [show (String.mk ('[' :: ((quoteString s ++ commaTail (l.map quoteString)) ++ [']']))).data
        = '[' :: (quoteString s ++ (commaTail (l.map quoteString) ++ ']' :: ([] : List Char)))
      from by simp]
    rw [jsonTokens.eq_def]
    simp only [Char.reduceEq, Char.reduceToNat, reduceIte, if_false, if_true]
    rw [jsonTokens_quote, jsonTokens_commaTail]
    show parseTokens (Tok.lbrack :: Tok.str s :: (tailToks l ++ [Tok.rbrack])) = some (s :: l)
    rw [parseTokens]
    simp [parseStrTail_tailToks]

theorem charListLe_iff : ∀ as bs : List Char, charListLe as bs = true ↔ ¬ bs < as := by
  intro as
  induction as with
  | nil =>
    intro bs
    simp only [charListLe, true_iff]
    intro hlt
    cases hlt
  | cons a as ih =>
    intro bs
    cases bs with
    | nil =>
      simp only [charListLe, Bool.false_eq_true, false_iff, not_not]
      exact List.Lex.nil
    | cons b bs =>
      rw [charListLe]
      by_cases h1 : a.toNat < b.toNat
      · simp only [h1, if_true, true_iff]
        intro hlt
        cases hlt with
        | rel hb => exact absurd (show b.toNat < a.toNat from hb) (by omega)
        | cons _ => exact absurd h1 (by omega)
      · by_cases h2 : b.toNat < a.toNat
        · simp only [h1, h2, if_false, if_true, Bool.false_eq_true, false_iff, not_not]
          exact List.Lex.rel (show b < a from h2)
        · have hab : a = b := by
            have hval : a.toNat = b.toNat := by omega
            exact Char.ext (UInt32.ext hval)
          subst hab
          simp only [h1, h2, if_false]
          rw [ih bs]
          constructor
          · intro hn hlt
            cases hlt with
            | rel hb => exact absurd (show a.toNat < a.toNat from hb) (by omega)
            | cons htl => exact hn htl
          · intro hn hlt
            exact hn (List.Lex.cons hlt)

/-- The executable collation agrees with the standard string order. -/
theorem textLe_iff (a b : String) : textLe a b = true ↔ a ≤ b := by
  rw [textLe, charListLe_iff, String.le_iff_toList_le]
  exact not_lt

/-- What `save` persists decodes back to the saved database. -/
theorem decodePersisted_save (s : Store) : decodePersisted (save s) = some s.db := by
  simp [decodePersisted, save, base64_roundtrip _ (dbExport_lt_256 s.db), dbImport_dbExport]

/-- The dynamic UPDATE never touches `id` or `created_at`: they are
filtered out of the SET list. -/
theorem foldl_applyUpd_frame (us : List UpdEntry) :
    ∀ r : Row, (us.foldl applyUpd r).id = r.id ∧
      (us.foldl applyUpd r).created_at = r.created_at := by
  induction us with
  | nil => intro r; exact ⟨rfl, rfl⟩
  | cons u us ih =>
    intro r
    rw [List.foldl_cons]
    have h := ih (applyUpd r u)
    cases u <;> simpa [applyUpd] using h

theorem updateIdea_map_frame (s : Store) (id : String) (us : List UpdEntry) (now : String) :
    (updateIdea s id us now).1.db.rows.map (fun r => (r.id, r.created_at)) =
      s.db.rows.map (fun r => (r.id, r.created_at)) := by
  show (s.db.rows.map _).map _ = _
  rw [List.map_map]
  apply List.map_congr_left
  intro r hr
  by_cases h : r.id = id
  · simp [Function.comp, h, (foldl_applyUpd_frame us r).1, (foldl_applyUpd_frame us r).2]
  · simp [Function.comp, h]

/-- Inserting into the sorted list does not disturb the rows with any
fixed `updated_at` value: skipped rows have a strictly larger key. -/
theorem filter_orderedInsert (t : String) (a : Row) (l : List Row) :
    (List.orderedInsert rowGE a l).filter (fun r => r.updated_at == t) =
      if a.updated_at = t then a :: l.filter (fun r => r.updated_at == t)
      else l.filter (fun r => r.updated_at == t) := by
  induction l with
  | nil =>
    rw [List.orderedInsert]
    by_cases h : a.updated_at = t <;> simp [h]
  | cons b l ih =>
    rw [List.orderedInsert]
    by_cases hab : rowGE a b
    · rw [if_pos hab]
      by_cases h : a.updated_at = t <;> simp [h, List.filter_cons]
    · rw [if_neg hab]
      have hb : a.updated_at < b.updated_at :=
        not_le.mp (fun hle => hab ((textLe_iff _ _).mpr hle))
      rw [List.filter_cons, List.filter_cons, ih]
      by_cases h : a.updated_at = t
      · have hbt : (b.updated_at == t) = false := by
          rw [beq_eq_false_iff_ne]
          rw [← h]
          exact (ne_of_gt hb)
        simp [h, hbt]
      · simp [h]

/-- Stability of the listing order: the rows sharing one `updated_at`
value appear in `sortRows` exactly in their rowid (insertion) order. -/
theorem filter_sortRows (t : String) (l : List Row) :
    (sortRows l).filter (fun r => r.updated_at == t) =
      l.filter (fun r => r.updated_at == t) := by
  induction l with
  | nil => rfl
  | cons a l ih =>
    show (List.orderedInsert rowGE a (List.insertionSort rowGE l)).filter _ = _
    rw [filter_orderedInsert]
    rw [show List.insertionSort rowGE l = sortRows l from rfl, ih]
    by_cases h : a.updated_at = t
    · simp [h, List.filter_cons]
    · simp [h, List.filter_cons]

theorem sortRows_perm (l : List Row) : (sortRows l).Perm l :=
  List.perm_insertionSort rowGE l

theorem getAllIdeas_sorted (db : DB) :
    List.Sorted (fun a b : Idea => b.updated_at ≤ a.updated_at) (getAllIdeas db) := by
  have h : List.Sorted rowGE (sortRows db.rows) := List.sorted_insertionSort rowGE db.rows
  exact List.Pairwise.map rowToIdea (fun a b hab => (textLe_iff _ _).mp hab) h

/-- C1 counterexample: the store-level `createIdea` does not validate.
`create("", "body")` and `create("title", "")` both succeed (return an
id), insert a row, and trigger a durable write — contradicting the claim
that they fail with `ValidationError` and neither alter the collection
nor trigger a persistence write. -/
theorem c1_counterexample :
    ((createIdea store0 "" "body" [] "2026-01-01T00:00:00.000Z").2.isSome = true ∧
      (createIdea store0 "" "body" [] "2026-01-01T00:00:00.000Z").1.db.rows.length =
        store0.db.rows.length + 1 ∧
      (createIdea store0 "" "body" [] "2026-01-01T00:00:00.000Z").1.writes =
        store0.writes + 1) ∧
    ((createIdea store0 "title" "" [] "2026-01-01T00:00:00.000Z").2.isSome = true ∧
      (createIdea store0 "title" "" [] "2026-01-01T00:00:00.000Z").1.db.rows.length =
        store0.db.rows.length + 1 ∧
      (createIdea store0 "title" "" [] "2026-01-01T00:00:00.000Z").1.writes =
        store0.writes + 1) := by
  decide

/-- C1 (amended): `createIdea` performs no validation of title or body —
its outcome depends only on whether the generated id collides with an
existing row; whenever it returns an id (empty title or body included) it
has inserted a row and performed a durable write.  The
non-empty-after-trimming rule lives only in the presentation layer:
`handleFormSubmit` does not call the store when the trimmed title or
body is empty. -/
theorem c1_amended (s : Store) (title body : String) (tags : List String) (now : String) :
    ((createIdea s title body tags now).2.isSome =
      !(s.db.rows.any (fun r => r.id == (generateUUID s.rng).1))) ∧
    (∀ id, (createIdea s title body tags now).2 = some id →
      (createIdea s title body tags now).1.db.rows.length = s.db.rows.length + 1 ∧
      (createIdea s title body tags now).1.writes = s.writes + 1) ∧
    (jsTrim title = "" ∨ jsTrim body = "" →
      handleFormSubmitCreate s title body tags now = s) := by
  refine ⟨?_, ?_, ?_⟩
  · by_cases h : s.db.rows.any (fun r => r.id == (generateUUID s.rng).1) <;>
      simp [createIdea, h]
  · intro id hid
    by_cases h : s.db.rows.any (fun r => r.id == (generateUUID s.rng).1)
    · simp [createIdea, h] at hid
    · simp [createIdea, h, save]
  · intro h
    show (if jsTrim title = "" ∨ jsTrim body = "" then s
          else (createIdea s (jsTrim title) (jsTrim body) tags now).1) = s
    rw [if_pos h]

/-- C1 witness: instantiating the amended claim at `create("", "body")`
and at a whitespace-only title in the form handler. -/
theorem c1_witness :
    ((createIdea store0 "" "body" [] "t").1.db.rows.length = store0.db.rows.length + 1 ∧
      (createIdea store0 "" "body" [] "t").1.writes = store0.writes + 1) ∧
    handleFormSubmitCreate store0 " " "body" [] "t" = store0 :=
  ⟨(c1_amended store0 "" "body" [] "t").2.1 "00000000-0000-4000-8000-000000000000"
      (by decide),
    (c1_amended store0 " " "body" [] "t").2.2 (Or.inl (by decide))⟩

/-- C2 counterexample, stating the original claim at
`update("nonexistent-id", {title:"x"})` and `delete("nonexistent-id")`:
both calls return `true` — the very value they return for a present id,
so no not-found result is signalled — and both still perform a durable
write (`localStorage.setItem` runs once more), contradicting the claim
that they "return not-found" and that "no durable write occurs". -/
theorem c2_counterexample :
    (updateIdea store0 "nonexistent-id" [UpdEntry.title "x"] "t").2 = true ∧
    (deleteIdea store0 "nonexistent-id").2 = true ∧
    (updateIdea store0 "nonexistent-id" [UpdEntry.title "x"] "t").1.writes =
      store0.writes + 1 ∧
    (deleteIdea store0 "nonexistent-id").1.writes = store0.writes + 1 ∧
    (updateIdea (createIdea store0 "T" "B" [] "t0").1 "nonexistent-id"
        [UpdEntry.title "x"] "t").2 =
      (updateIdea (createIdea store0 "T" "B" [] "t0").1
        "00000000-0000-4000-8000-000000000000" [UpdEntry.title "x"] "t").2 ∧
    (deleteIdea (createIdea store0 "T" "B" [] "t0").1 "nonexistent-id").2 =
      (deleteIdea (createIdea store0 "T" "B" [] "t0").1
        "00000000-0000-4000-8000-000000000000").2 := by
  decide

/-- C2 (amended): for an id absent from the collection, `updateIdea` and
`deleteIdea` leave the in-memory collection unchanged and rewrite the
persistence slot with the encoding of that unchanged collection — so the
persisted value is unchanged whenever the slot was in sync (as it always
is after `init`/any mutation) and still decodes to the same collection —
but both calls return `true`, the same value as for a present id (no
not-found result), and both do perform one more durable write. -/
theorem c2_amended (s : Store) (id : String) (us : List UpdEntry) (now : String)
    (h : ∀ r ∈ s.db.rows, r.id ≠ id) :
    (updateIdea s id us now).1.db = s.db ∧
    (deleteIdea s id).1.db = s.db ∧
    (updateIdea s id us now).2 = true ∧
    (deleteIdea s id).2 = true ∧
    (updateIdea s id us now).1.persisted =
      some (uint8ArrayToBase64 (dbExport s.db)) ∧
    (deleteIdea s id).1.persisted =
      some (uint8ArrayToBase64 (dbExport s.db)) ∧
    (s.persisted = some (uint8ArrayToBase64 (dbExport s.db)) →
      (updateIdea s id us now).1.persisted = s.persisted ∧
      (deleteIdea s id).1.persisted = s.persisted) ∧
    decodePersisted (updateIdea s id us now).1 = some s.db ∧
    decodePersisted (deleteIdea s id).1 = some s.db ∧
    (updateIdea s id us now).1.writes = s.writes + 1 ∧
    (deleteIdea s id).1.writes = s.writes + 1 := by
  have hu : (updateIdea s id us now).1.db = s.db := by
    show DB.mk (s.db.rows.map fun r =>
      if r.id = id then { us.foldl applyUpd r with updated_at := now } else r) = s.db
    rw [List.map_congr_left (fun r hr => if_neg (h r hr)), List.map_id']
  have hd : (deleteIdea s id).1.db = s.db := by
    show DB.mk (s.db.rows.filter fun r => r.id != id) = s.db
    rw [List.filter_eq_self.mpr (fun r hr => by simpa using h r hr)]
  have hup : (updateIdea s id us now).1.persisted =
      some (uint8ArrayToBase64 (dbExport s.db)) := by
    calc (updateIdea s id us now).1.persisted
        = some (uint8ArrayToBase64 (dbExport (updateIdea s id us now).1.db)) := rfl
      _ = some (uint8ArrayToBase64 (dbExport s.db)) := by rw [hu]
  have hdp : (deleteIdea s id).1.persisted =
      some (uint8ArrayToBase64 (dbExport s.db)) := by
    calc (deleteIdea s id).1.persisted
        = some (uint8ArrayToBase64 (dbExport (deleteIdea s id).1.db)) := rfl
      _ = some (uint8ArrayToBase64 (dbExport s.db)) := by rw [hd]
  refine ⟨hu, hd, rfl, rfl, hup, hdp, ?_, ?_, ?_, rfl, rfl⟩
  · intro hsync
    exact ⟨by rw [hup, hsync], by rw [hdp, hsync]⟩
  · calc decodePersisted (updateIdea s id us now).1
        = some (updateIdea s id us now).1.db := decodePersisted_save _
      _ = some s.db := by rw [hu]
  · calc decodePersisted (deleteIdea s id).1
        = some (deleteIdea s id).1.db := decodePersisted_save _
      _ = some s.db := by rw [hd]

/-- C2 witness: the amended claim applied to the fresh store — whose slot
is in sync after `init` — and the id `"nonexistent-id"`: the collection
is unchanged, the persisted value is unchanged, and it decodes to the
unchanged collection. -/
theorem c2_witness :
    (updateIdea store0 "nonexistent-id" [UpdEntry.title "x"] "t").1.db = store0.db ∧
    (updateIdea store0 "nonexistent-id" [UpdEntry.title "x"] "t").1.persisted =
      store0.persisted ∧
    decodePersisted (deleteIdea store0 "nonexistent-id").1 = some store0.db := by
  have h := c2_amended store0 "nonexistent-id" [UpdEntry.title "x"] "t" (by decide)
  obtain ⟨h1, h2, h3, h4, h5, h6, h7, h8, h9, h10, h11⟩ := h
  exact ⟨h1, (h7 (by decide)).1, h9⟩

/-- The `JSON.stringify` of an array is never the empty string (it starts
with `[`), so the falsy-cell check never masks a stored array. -/
theorem stringifyStrArr_ne_empty (l : List String) : stringifyStrArr l ≠ "" := by
  intro hcontra
  have hdata : (stringifyStrArr l).data = "".data := by rw [hcontra]
  simp [stringifyStrArr] at hdata

/-- Reading back a cell the store itself wrote yields the stored list. -/
theorem parseTagsCell_stringify (l : List String) :
    parseTagsCell (some (stringifyStrArr l)) = l := by
  rw [parseTagsCell, if_neg (stringifyStrArr_ne_empty l), jsonParse_stringify]

/-- C3 counterexample: `createIdea` stores the supplied tags verbatim —
`create` with tags `["a", "a", ""]` yields a stored record whose tags
sequence contains a duplicate and an empty string, contradicting the
claimed invariant and the claimed deduplication on create. -/
theorem c3_counterexample :
    (getAllIdeas (createIdea store0 "t" "b" ["a", "a", ""] "ts").1.db).map Idea.tags =
      [["a", "a", ""]] ∧
    ¬ (["a", "a", ""] : List String).Nodup ∧ ("" ∈ ["a", "a", ""]) := by
  refine ⟨by decide, by decide, by decide⟩

/-- C3 (amended): the store applies no deduplication and no empty-string
filter — a successful `createIdea` stores the supplied tags sequence
verbatim (order preserved, duplicates and empty strings included), and
`getIdea` returns exactly that sequence.  The no-duplicate / no-empty
property is enforced only by the presentation layer: `addTag` trims,
rejects an empty result and skips an already-present tag, so it preserves
that invariant of the form state. -/
theorem c3_amended (s : Store) (title body : String) (tags : List String) (now : String) :
    (∀ id, (createIdea s title body tags now).2 = some id →
      (getIdea (createIdea s title body tags now).1.db id).map Idea.tags = some tags) ∧
    (∀ (cur : List String) (tag : String), cur.Nodup → "" ∉ cur →
      (addTag cur tag).Nodup ∧ "" ∉ addTag cur tag) := by
  constructor
  · intro id hid
    by_cases h : s.db.rows.any (fun r => r.id == (generateUUID s.rng).1)
    · simp [createIdea, h] at hid
    · have hid2 : id = (generateUUID s.rng).1 := by
        simp [createIdea, h] at hid
        exact hid.symm
      subst hid2
      have hnone : ∀ r ∈ s.db.rows, ¬ ((fun r => r.id == (generateUUID s.rng).1) r = true) := by
        intro r hr
        simp only [List.any_eq_true, not_exists, not_and] at h
        intro hcontra
        exact absurd hcontra (by simpa using h r hr)
      simp only [createIdea, h, Bool.false_eq_true, if_false, getIdea, save]
      rw [List.find?_append, List.find?_eq_none.mpr hnone]
      simp [rowToIdea, parseTagsCell_stringify]
  · intro cur tag hnodup hempty
    rw [addTag]
    by_cases h1 : jsTrim tag = ""
    · simp only [h1, if_pos rfl]
      exact ⟨hnodup, hempty⟩
    · rw [if_neg h1]
      by_cases h2 : cur.contains (jsTrim tag)
      · rw [if_pos h2]
        exact ⟨hnodup, hempty⟩
      · rw [if_neg h2]
        have hmem : jsTrim tag ∉ cur := by simpa using h2
        constructor
        · simp [List.nodup_append, hnodup, hmem]
        · intro hcontra
          rcases List.mem_append.mp hcontra with hin | hin
          · exact hempty hin
          · simp only [List.mem_singleton] at hin
            exact h1 hin.symm

/-- C3 witness: the amended claim at a concrete create and a concrete
`addTag` call. -/
theorem c3_witness :
    (getIdea (createIdea store0 "t" "b" ["x", "y"] "ts").1.db
        "00000000-0000-4000-8000-000000000000").map Idea.tags = some ["x", "y"] ∧
    ((addTag ["a"] "b").Nodup ∧ "" ∉ addTag ["a"] "b") :=
  ⟨(c3_amended store0 "t" "b" ["x", "y"] "ts").1 "00000000-0000-4000-8000-000000000000"
      (by decide),
    (c3_amended store0 "t" "b" ["x", "y"] "ts").2 ["a"] "b" (by decide) (by decide)⟩

/-- C4: every mutating operation ends in `save`: after a successful
`createIdea` and after every `updateIdea`/`deleteIdea` call, the single
persisted slot has just been rewritten (one more durable write) and its
content decodes to exactly the current in-memory database. -/
theorem c4_persist_after_mutation (s : Store) (title body : String) (tags : List String)
    (now : String) (id : String) (us : List UpdEntry) :
    ((createIdea s title body tags now).2.isSome = true →
      decodePersisted (createIdea s title body tags now).1 =
        some (createIdea s title body tags now).1.db ∧
      (createIdea s title body tags now).1.writes = s.writes + 1) ∧
    (decodePersisted (updateIdea s id us now).1 = some (updateIdea s id us now).1.db ∧
      (updateIdea s id us now).1.writes = s.writes + 1) ∧
    (decodePersisted (deleteIdea s id).1 = some (deleteIdea s id).1.db ∧
      (deleteIdea s id).1.writes = s.writes + 1) := by
  refine ⟨?_, ⟨decodePersisted_save _, rfl⟩, ⟨decodePersisted_save _, rfl⟩⟩
  intro hsome
  by_cases h : s.db.rows.any (fun r => r.id == (generateUUID s.rng).1)
  · simp [createIdea, h] at hsome
  · simp only [createIdea, h, Bool.false_eq_true, if_false]
    exact ⟨decodePersisted_save _, rfl⟩

/-- C4 witness: the persisted slot decodes to the in-memory database
right after a concrete create and a concrete update. -/
theorem c4_witness :
    decodePersisted (createIdea store0 "T" "B" [] "t").1 =
      some (createIdea store0 "T" "B" [] "t").1.db ∧
    decodePersisted (updateIdea store0 "x" [] "t").1 =
      some (updateIdea store0 "x" [] "t").1.db :=
  ⟨((c4_persist_after_mutation store0 "T" "B" [] "t" "x" []).1 (by decide)).1,
    (c4_persist_after_mutation store0 "T" "B" [] "t" "x" []).2.1.1⟩

/-- C5: the persisted representation round-trips for every collection —
the byte image of the whole database decodes back to an identical
database (same rows, hence same ids, field values and tag text), the
base64 layer is lossless on it, and what `save` just wrote always decodes
to the current in-memory collection. -/
theorem c5_roundtrip (db : DB) (s : Store) :
    dbImport (dbExport db) = some db ∧
    base64ToUint8Array (uint8ArrayToBase64 (dbExport db)) = some (dbExport db) ∧
    decodePersisted (save s) = some s.db :=
  ⟨dbImport_dbExport db, base64_roundtrip _ (dbExport_lt_256 db), decodePersisted_save s⟩

/-- C6 counterexample: the export of one freshly created idea.  The
top level has the three claimed attributes, but the record is serialized
with ten fields — `stage`, `essence`, `insight`, `next_action` in
addition to the six the claim allows — so "with no other fields" is
false. -/
theorem c6_counterexample :
    exportToJSON (createIdea store0 "Title1" "Body1" ["x"] "t1").1 "t2" =
      JsVal.obj [("schema_version", JsVal.num 1), ("exported_at", JsVal.str "t2"),
        ("ideas", JsVal.arr [JsVal.obj
          [("id", JsVal.str "00000000-0000-4000-8000-000000000000"),
           ("title", JsVal.str "Title1"), ("body", JsVal.str "Body1"),
           ("stage", JsVal.str "captured"), ("tags", JsVal.arr [JsVal.str "x"]),
           ("essence", JsVal.nul), ("insight", JsVal.nul), ("next_action", JsVal.nul),
           ("created_at", JsVal.str "t1"), ("updated_at", JsVal.str "t1")]])] ∧
    ((getAllIdeas (createIdea store0 "Title1" "Body1" ["x"] "t1").1.db).map
        (fun i => (ideaJsonFields i).map Prod.fst)) =
      [["id", "title", "body", "stage", "tags", "essence", "insight", "next_action",
        "created_at", "updated_at"]] ∧
    (["id", "title", "body", "stage", "tags", "essence", "insight", "next_action",
      "created_at", "updated_at"] : List String) ≠
      ["id", "title", "body", "tags", "created_at", "updated_at"] :=
  ⟨rfl, by decide, by decide⟩

/-- C6 (amended): `exportToJSON` returns exactly three top-level
attributes — the schema revision integer `DB_VERSION`, the export
timestamp, and the records in exactly the `list()` order — but each
record is serialized with exactly the ten schema columns `id, title,
body, stage, tags, essence, insight, next_action, created_at,
updated_at` in that order, not only the six fields the claim names. -/
theorem c6_amended (s : Store) (now : String) :
    exportToJSON s now =
      JsVal.obj [("schema_version", JsVal.num DB_VERSION), ("exported_at", JsVal.str now),
        ("ideas", JsVal.arr ((listIdeas s).2.map (fun i => JsVal.obj (ideaJsonFields i))))] ∧
    (∀ i : Idea, (ideaJsonFields i).map Prod.fst =
      ["id", "title", "body", "stage", "tags", "essence", "insight", "next_action",
       "created_at", "updated_at"]) :=
  ⟨rfl, fun i => rfl⟩

/-- C7: `getAllIdeas` returns all records — a permutation of the table —
sorted by `updated_at` descending; ties are kept in rowid (insertion)
order: for every `updated_at` value the filtered sublist is exactly the
one of the unsorted table (a stable sort); the store-level read leaves
the store untouched (no persistence write); and in the concrete scenario
(create A, B, C, then update A) the listing is `[A, C, B]`. -/
theorem c7_listing :
    (∀ db : DB, (sortRows db.rows).Perm db.rows) ∧
    (∀ db : DB, List.Sorted (fun a b : Idea => b.updated_at ≤ a.updated_at)
      (getAllIdeas db)) ∧
    (∀ (db : DB) (t : String), (sortRows db.rows).filter (fun r => r.updated_at == t) =
      db.rows.filter (fun r => r.updated_at == t)) ∧
    (∀ s : Store, (listIdeas s).1 = s ∧ (listIdeas s).2 = getAllIdeas s.db) ∧
    (getAllIdeas storeABCupd.db).map Idea.id =
      ["11111111-1111-4111-9111-111111111111",
       "33333333-3333-4333-b333-333333333333",
       "22222222-2222-4222-a222-222222222222"] :=
  ⟨fun db => sortRows_perm db.rows, getAllIdeas_sorted, fun db t => filter_sortRows t db.rows,
    fun s => ⟨rfl, rfl⟩, by decide⟩

/-- C8: `updateIdea` changes no row's `id` or `created_at`, whatever the
updates object contains — entries keyed `id` or `created_at` are ignored
(filtered out of the SET list), and the call still returns `true`, not an
error. -/
theorem c8_update_frame (s : Store) (id : String) (us : List UpdEntry) (now : String) :
    (updateIdea s id us now).1.db.rows.map (fun r => (r.id, r.created_at)) =
      s.db.rows.map (fun r => (r.id, r.created_at)) ∧
    (updateIdea s id us now).2 = true :=
  ⟨updateIdea_map_frame s id us now, rfl⟩

/-- C9 counterexample: uniqueness does not hold over every behaviour of
the random source — with the exhausted stream (all zeros) the id
generated for the second create equals the id generated for the first,
and that second create then fails on the `PRIMARY KEY` constraint. -/
theorem c9_counterexample :
    (generateUUID store0.rng).1 =
      (generateUUID (createIdea store0 "A" "B" [] "t").1.rng).1 ∧
    (createIdea (createIdea store0 "A" "B" [] "t").1 "C" "D" [] "t2").2 = none := by
  decide

/-- C9 (amended): the generator alone does not make ids distinct — a
repeating random source reproduces an id (counterexample), and the
insert then fails on the `PRIMARY KEY` constraint leaving the collection
unchanged.  What does hold: the ids stored in the collection are always
pairwise distinct — every operation preserves `Nodup` of the stored ids,
`createIdea` inserting only when the generated id is fresh. -/
theorem c9_amended (s : Store) (title body : String) (tags : List String)
    (now id0 : String) (us : List UpdEntry)
    (h : (s.db.rows.map Row.id).Nodup) :
    ((createIdea s title body tags now).1.db.rows.map Row.id).Nodup ∧
    ((updateIdea s id0 us now).1.db.rows.map Row.id).Nodup ∧
    ((deleteIdea s id0).1.db.rows.map Row.id).Nodup := by
  refine ⟨?_, ?_, ?_⟩
  · by_cases hcol : s.db.rows.any (fun r => r.id == (generateUUID s.rng).1)
    · simpa [createIdea, hcol] using h
    · have hfresh : (generateUUID s.rng).1 ∉ s.db.rows.map Row.id := by
        intro hmem
        obtain ⟨r, hr, hrid⟩ := List.mem_map.mp hmem
        apply hcol
        exact List.any_eq_true.mpr ⟨r, hr, by simp [hrid]⟩
      simp only [createIdea, hcol, Bool.false_eq_true, if_false, save]
      rw [List.map_append]
      simp only [List.map_cons, List.map_nil]
      rw [List.nodup_append]
      refine ⟨h, List.nodup_singleton _, ?_⟩
      intro a ha hb
      simp only [List.mem_singleton] at hb
      exact hfresh (hb ▸ ha)
  · have hmap := updateIdea_map_frame s id0 us now
    have hids : (updateIdea s id0 us now).1.db.rows.map Row.id = s.db.rows.map Row.id := by
      have := congrArg (List.map Prod.fst) hmap
      simpa [List.map_map, Function.comp] using this
    rw [hids]
    exact h
  · have hsub : List.Sublist ((deleteIdea s id0).1.db.rows.map Row.id)
        (s.db.rows.map Row.id) :=
      List.Sublist.map _ (List.filter_sublist _)
    exact h.sublist hsub

/-- C9 witness: `Nodup` preservation applied to the fresh empty store. -/
theorem c9_witness :
    ((createIdea store0 "A" "B" [] "t").1.db.rows.map Row.id).Nodup ∧
    ((deleteIdea store0 "x").1.db.rows.map Row.id).Nodup :=
  ⟨(c9_amended store0 "A" "B" [] "t" "x" [] (by decide)).1,
    (c9_amended store0 "A" "B" [] "t" "x" [] (by decide)).2.2⟩

/-- C10: a stored record whose `tags` cell is SQL `NULL` (or the empty
string — both falsy in JS) or whose text fails to parse as JSON is
returned with `tags = []` instead of failing: `rowToIdea` maps such cells
to `[]`, and `getIdea`/`getAllIdeas` return exactly `rowToIdea` images of
stored rows — they are total, no parse error propagates. -/
theorem c10_tags_resilient :
    (∀ r : Row, r.tags = none → (rowToIdea r).tags = []) ∧
    (∀ (r : Row) (sTxt : String), r.tags = some sTxt → jsonParseStrArr sTxt = none →
      (rowToIdea r).tags = []) ∧
    (∀ (db : DB) (id : String) (i : Idea), getIdea db id = some i →
      ∃ r ∈ db.rows, i = rowToIdea r) ∧
    (∀ (db : DB) (i : Idea), i ∈ getAllIdeas db → ∃ r ∈ db.rows, i = rowToIdea r) := by
  refine ⟨?_, ?_, ?_, ?_⟩
  · intro r hr
    simp [rowToIdea, parseTagsCell, hr]
  · intro r sTxt hr hparse
    by_cases hs : sTxt = ""
    · simp [rowToIdea, parseTagsCell, hr, hs]
    · simp [rowToIdea, parseTagsCell, hr, hs, hparse]
  · intro db id i hget
    rw [getIdea] at hget
    cases hfind : db.rows.find? (fun r => r.id == id) with
    | none => rw [hfind] at hget; simp at hget
    | some r =>
      rw [hfind] at hget
      have hri : rowToIdea r = i := by simpa using hget
      exact ⟨r, List.mem_of_find?_eq_some hfind, hri.symm⟩
  · intro db i hi
    rw [getAllIdeas] at hi
    obtain ⟨r, hr, rfl⟩ := List.mem_map.mp hi
    exact ⟨r, (sortRows_perm db.rows).mem_iff.mp hr, rfl⟩

/-- C10 witness: the resilience applied to a `NULL` cell, an unparseable
cell, and a concrete `getIdea` call. -/
theorem c10_witness :
    (rowToIdea rowNullTags).tags = [] ∧ (rowToIdea rowBadTags).tags = [] ∧
    ∃ r ∈ (⟨[rowBadTags]⟩ : DB).rows, rowToIdea rowBadTags = rowToIdea r :=
  ⟨c10_tags_resilient.1 rowNullTags rfl,
    c10_tags_resilient.2.1 rowBadTags "oops" rfl (by decide),
    c10_tags_resilient.2.2.1 ⟨[rowBadTags]⟩ "id2" (rowToIdea rowBadTags) (by decide)⟩

end IdeaLib
